import Mathlib

/-!
Verification development for `bdo_headless_scraper.py`.

The pure parts of the scraper are shallowly embedded:
text is modelled as `List Char`, Python float arithmetic on backoff delays
as exact rationals, the browser engine as an oracle function, and the
retry loop of `scrape_one` as a trace-producing recursion.
-/

set_option autoImplicit false

/-! ## Text helpers: `_clean` and line splitting -/

/-- Python `\s` on the ASCII range (the character class used by `re.sub`
and `str.strip` in `_clean`). -/
def isPySpace (c : Char) : Bool :=
  c == ' ' || c == '\t' || c == '\n' || c == '\r' || c == '\x0b' || c == '\x0c'

/-- One pass of `re.sub(r"\s+", " ", text)`: every maximal run of
whitespace becomes a single space.  The flag records whether the previous
character was part of a whitespace run. -/
def collapseWSAux (prevSpace : Bool) : List Char → List Char
  | [] => []
  | c :: cs =>
    if isPySpace c then
      if prevSpace then collapseWSAux true cs
      else ' ' :: collapseWSAux true cs
    else c :: collapseWSAux false cs

/-- Python `str.strip()`: drop whitespace from both ends. -/
def stripEnds (l : List Char) : List Char :=
  ((l.dropWhile isPySpace).reverse.dropWhile isPySpace).reverse

/-- Model of `_clean` (line 181): `re.sub(r"\s+", " ", text or "").strip()`. -/
def clean (l : List Char) : List Char :=
  stripEnds (collapseWSAux false l)

/-- Python `str.split("\n")`. -/
def splitOnNl : List Char → List (List Char)
  | [] => [[]]
  | c :: cs =>
    let r := splitOnNl cs
    if c = '\n' then [] :: r
    else
      match r with
      | [] => [[c]]
      | h :: t => (c :: h) :: t

/-- Lines computed by `parse_profile` (lines 220-221):
`body_text = _clean(body inner text)` then
`lines = [l for l in body_text.split("\n") if l]`. -/
def linesOf (body : List Char) : List (List Char) :=
  (splitOnNl (clean body)).filter (fun l => !l.isEmpty)

/-! ## Anchor scan near "Adventurer Profile" (lines 226-234) -/

/-- The anchor label searched for in the line list. -/
def anchorText : List Char := "Adventurer Profile".data

/-- `re.fullmatch(r"[A-Z]{2,3}", s)`: two or three uppercase ASCII letters. -/
def isRegionCode (l : List Char) : Bool :=
  (l.length == 2 || l.length == 3) && l.all (fun c => decide ('A' ≤ c ∧ c ≤ 'Z'))

/-- Python `list.index`, returning the index of the first occurrence. -/
def idxOfFirst (x : List Char) : List (List Char) → Option Nat
  | [] => none
  | l :: ls => if l = x then some 0 else (idxOfFirst x ls).map (· + 1)

/-- The loop `for idx in range(len(window) - 1)` (lines 230-234): find the
first region-code line that still has a successor inside the window, and
return it together with that successor. -/
def scanWindow : List (List Char) → Option (List Char × List Char)
  | [] => none
  | [_] => none
  | a :: b :: rest => if isRegionCode a then some (a, b) else scanWindow (b :: rest)

/-- Optional region/family pair produced from a 15-line window. -/
def regionFamilyOfWindow (w : List (List Char)) : Option (List Char) × Option (List Char) :=
  match scanWindow w with
  | some (r, f) => (some r, some f)
  | none => (none, none)

/-- The anchor stage of `parse_profile`: membership test, `lines.index`
(which raises `ValueError` when the element is absent, modelled by
`Except.error`), the 15-line window, and the region scan. -/
def anchorStage (lines : List (List Char)) :
    Except String (Option (List Char) × Option (List Char)) :=
  if anchorText ∈ lines then
    match idxOfFirst anchorText lines with
    | some i => Except.ok (regionFamilyOfWindow ((lines.drop i).take 15))
    | none => Except.error "ValueError: substring not found"
  else Except.ok (none, none)

/-! ## Section lists (`_extract_section_list`, lines 188-213) -/

/-- Pure tail of `_extract_section_list`: the heading lookup is external
DOM access, modelled as `none` when the heading is absent (count 0, empty
list returned) and `some texts` when present, in which case every inner
text is cleaned and empty results are dropped (line 213). -/
def extractSectionList (headingData : Option (List (List Char))) : List (List Char) :=
  match headingData with
  | none => []
  | some texts => (texts.map clean).filter (fun l => !l.isEmpty)

/-! ## Regex machinery for the two sub-parsers

Both regexes are embedded with Python `re` backtracking semantics:
`.` matches any character except a newline, a lazy group tries the
shortest extension first, greedy repetition tries the longest first, and
`$` matches at the end of the string or just before a final newline.
-/

/-- Candidate match lengths `m, m-1, ..., low` (empty when `m < low`),
the backtracking order of a greedy repetition that matched `m` characters. -/
def downFrom (m low : Nat) : List Nat :=
  (List.range (m + 1 - low)).map (fun j => m - j)

/-- First successful alternative, in backtracking priority order. -/
def firstSome {α β : Type} (f : α → Option β) : List α → Option β
  | [] => none
  | a :: as =>
    match f a with
    | some b => some b
    | none => firstSome f as

/-- Match `(.+)$` against `r`: a maximal nonempty newline-free prefix,
followed by nothing or by a single final newline. -/
def dotPlusEnd (r : List Char) : Option (List Char) :=
  let g := r.takeWhile (fun c => c ≠ '\n')
  if g.isEmpty then none
  else
    let t := r.drop g.length
    if t = [] ∨ t = ['\n'] then some g else none

/-- Separator alternatives of `(?:\s{2,}|\s:\s)` available at position `r`,
as consumed lengths in backtracking order: the greedy whitespace run first
(longest option first), then the space-colon-space alternative. -/
def sepCands (r : List Char) : List Nat :=
  downFrom (r.takeWhile isPySpace).length 2 ++
    (match r with
     | a :: ':' :: c :: _ => if isPySpace a && isPySpace c then [3] else []
     | _ => [])

/-- Try to finish the community regex at the current position: consume one
separator alternative, then `(.+)$`. -/
def trySepAt (r : List Char) : Option (List Char) :=
  firstSome (fun k => dotPlusEnd (r.drop k)) (sepCands r)

/-- Scan for the lazy split point of
`re.match(r"^(.*?)(?:\s{2,}|\s:\s)(.+)$", item)` (line 242): `acc` holds
the reversed group-1 prefix; the prefix may not cross a newline. -/
def communityAux (acc : List Char) : List Char → Option (List Char × List Char)
  | [] =>
    match trySepAt [] with
    | some g2 => some (acc.reverse, g2)
    | none => none
  | c :: cs =>
    match trySepAt (c :: cs) with
    | some g2 => some (acc.reverse, g2)
    | none => if c == '\n' then none else communityAux (c :: acc) cs

/-- Model of the community separator regex match on one item. -/
def matchCommunity (l : List Char) : Option (List Char × List Char) :=
  communityAux [] l

/-- Python dict assignment `d[k] = v`: overwrite in place, else append. -/
def dictInsert : List (List Char × List Char) → List Char → List Char →
    List (List Char × List Char)
  | [], k, v => [(k, v)]
  | (k', v') :: rest, k, v =>
    if k' = k then (k, v) :: rest else (k', v') :: dictInsert rest k v

/-- The community loop (lines 240-246): split each item at the separator
when the regex matches, otherwise map the whole item to the empty value. -/
def communityOf (items : List (List Char)) : List (List Char × List Char) :=
  items.foldl
    (fun d item =>
      match matchCommunity item with
      | some (a, b) => dictInsert d (clean a) (clean b)
      | none => dictInsert d item [])
    []

/-- Try to finish the class/level regex at the current position: `\s+`
(greedy, backtracking), `Lv` case-insensitively, `\s+`, then `(.+)$`. -/
def tryLvAt (r : List Char) : Option (List Char) :=
  firstSome
    (fun k =>
      match r.drop k with
      | a :: b :: rest2 =>
        if (a == 'L' || a == 'l') && (b == 'V' || b == 'v') then
          firstSome (fun k2 => dotPlusEnd (rest2.drop k2))
            (downFrom (rest2.takeWhile isPySpace).length 1)
        else none
      | _ => none)
    (downFrom (r.takeWhile isPySpace).length 1)

/-- Scan for the lazy split point of
`re.match(r"^(.+?)\s+Lv\s+(.+)$", cls_line, re.I)` (line 260); `acc` is
nonempty on entry since `(.+?)` must consume at least one character. -/
def classAux (acc : List Char) : List Char → Option (List Char × List Char)
  | [] =>
    match tryLvAt [] with
    | some g2 => some (acc.reverse, g2)
    | none => none
  | c :: cs =>
    match tryLvAt (c :: cs) with
    | some g2 => some (acc.reverse, g2)
    | none => if c == '\n' then none else classAux (c :: acc) cs

/-- Model of the class/level regex match on one class line. -/
def matchClassLv : List Char → Option (List Char × List Char)
  | [] => none
  | c :: cs => if c == '\n' then none else classAux [c] cs

/-! ## Character pair loop (lines 248-275) -/

/-- Does `pat` begin `l`? -/
def beginsWith : List Char → List Char → Bool
  | [], _ => true
  | _ :: _, [] => false
  | p :: ps, c :: cs => p == c && beginsWith ps cs

/-- Python `pat in s`: substring containment. -/
def containsSub (pat : List Char) : List Char → Bool
  | [] => pat.isEmpty
  | c :: cs => beginsWith pat (c :: cs) || containsSub pat cs

/-- Python `str.replace(pat, repl)`: leftmost non-overlapping occurrences,
with a fuel argument bounding the number of scan steps. -/
def replaceSubAux (pat repl : List Char) : Nat → List Char → List Char
  | _, [] => []
  | 0, l => l
  | Nat.succ fuel, c :: cs =>
    if beginsWith pat (c :: cs) then
      repl ++ replaceSubAux pat repl fuel ((c :: cs).drop pat.length)
    else c :: replaceSubAux pat repl fuel cs

/-- Python `str.replace(pat, repl)` for a nonempty pattern. -/
def replaceSub (pat repl l : List Char) : List Char :=
  replaceSubAux pat repl l.length l

/-- The marker substring stripped from character name lines. -/
def mainMarker : List Char := "Main Character".data

/-- One parsed entry of the `characters` list. -/
structure CharacterEntry where
  name : List Char
  class_name : List Char
  level : List Char
  is_main : Bool
deriving DecidableEq, Repr

/-- One iteration of the character loop: a name line plus the optional
class/level line that follows it (lines 251-273).  The entry is kept only
when the stripped name is nonempty. -/
def charPair (nameLine : List Char) (clsLine : Option (List Char)) : List CharacterEntry :=
  let is_main := containsSub mainMarker nameLine
  let name := clean (replaceSub mainMarker [] nameLine)
  let (class_name, level) :=
    match clsLine with
    | some cl =>
      match matchClassLv cl with
      | some (a, b) => (clean a, clean b)
      | none => (([] : List Char), ([] : List Char))
    | none => (([] : List Char), ([] : List Char))
  if name.isEmpty then [] else [⟨name, class_name, level, is_main⟩]

/-- The `while i < len(created_raw)` loop with `i += 2` (lines 249-275):
items are consumed in pairs, a trailing unpaired name line has no
class/level line. -/
def charLoop : List (List Char) → List CharacterEntry
  | [] => []
  | [n] => charPair n none
  | n :: c :: rest => charPair n (some c) ++ charLoop rest

/-! ## `parse_profile` (lines 216-284) -/

/-- The structured record returned by `parse_profile`. -/
structure ProfileRecord where
  source_url : String
  region : Option (List Char)
  family_name : Option (List Char)
  community : List (List Char × List Char)
  life_raw : List (List Char)
  characters : List CharacterEntry
deriving DecidableEq, Repr

/-- Model of `parse_profile`: body text plus the three section inputs
(`none` models an absent heading).  The only operation of the pipeline
that can raise is `lines.index`, modelled in `anchorStage`. -/
def parseProfile (url : String) (body : List Char)
    (communityHD lifeHD createdHD : Option (List (List Char))) :
    Except String ProfileRecord := do
  let rf ← anchorStage (linesOf body)
  pure
    { source_url := url
      region := rf.1
      family_name := rf.2
      community := communityOf (extractSectionList communityHD)
      life_raw := extractSectionList lifeHD
      characters := charLoop (extractSectionList createdHD) }

/-! ## Proxy rotation (`ProxyManager`, lines 125-174) -/

/-- A single proxy attempt: layer name plus optional endpoint
(`none` models the direct connection). -/
structure ProxyPick where
  layer : String
  proxy : Option String
deriving DecidableEq, Repr

/-- State of `ProxyManager`.  `layers` holds each layer's name with its
endpoint list in post-shuffle order (the construction-time shuffle is
modelled by taking the already-shuffled lists as given, since it happens
exactly once and rotation never reorders them); `indices` models the
`_indices` dict, which maps every layer name to a counter starting at 0. -/
structure ProxyManager where
  layers : List (String × List String)
  direct_fallback : Bool
  indices : String → Nat

/-- The loop of `candidates()` over `self.layers` (lines 164-169): skip
empty layers, select `proxies[idx % len]`, increment that name's counter,
and thread the updated counters through the remaining layers. -/
def candidatesAux : List (String × List String) → (String → Nat) →
    List ProxyPick × (String → Nat)
  | [], idx => ([], idx)
  | (_, []) :: rest, idx => candidatesAux rest idx
  | (name, p :: ps) :: rest, idx =>
    (ProxyPick.mk name
        (some ((p :: ps).get
          ⟨idx name % (p :: ps).length, Nat.mod_lt (idx name) (Nat.succ_pos ps.length)⟩)) ::
      (candidatesAux rest (fun m => if m = name then idx name + 1 else idx m)).1,
     (candidatesAux rest (fun m => if m = name then idx name + 1 else idx m)).2)

/-- Model of `ProxyManager.candidates` (lines 158-174): one pick per
non-empty layer, then the trailing direct pick when fallback is enabled;
returns the picks together with the successor manager state. -/
def candidates (pm : ProxyManager) : List ProxyPick × ProxyManager :=
  ((candidatesAux pm.layers pm.indices).1 ++
      (if pm.direct_fallback then [ProxyPick.mk "direct" none] else []),
   { pm with indices := (candidatesAux pm.layers pm.indices).2 })

/-- The non-direct portion of one `candidates()` result. -/
def bodyPicks (pm : ProxyManager) : List ProxyPick :=
  (candidatesAux pm.layers pm.indices).1

/-- Manager state after `t` calls to `candidates()`. -/
def stateAfter (pm : ProxyManager) : Nat → ProxyManager
  | 0 => pm
  | t + 1 => (candidates (stateAfter pm t)).2

/-! ## Retry loop of `scrape_one` (lines 317-357) -/

/-- The configuration fields consumed by the retry loop; Python floats are
modelled as exact rationals (scaling by a power of two and taking a
minimum introduce no rounding of their own). -/
structure ScrapeCfg where
  retries : Nat
  backoff_seconds : ℚ
  max_backoff_seconds : ℚ

/-- The delay computed after a fully failed attempt (lines 351-354):
`min(cfg.max_backoff_seconds, cfg.backoff_seconds * 2 ** (attempt - 1))`. -/
def backoff (cfg : ScrapeCfg) (attempt : Nat) : ℚ :=
  min cfg.max_backoff_seconds (cfg.backoff_seconds * 2 ^ (attempt - 1))

/-- Outcome of trying one candidate, as decided by the browser engine
oracle: the context creation itself may fail (`new_context` raises before
any context exists), any later step of the `try` block may fail
(`new_page`, `goto`, `parse_profile`), or navigation plus extraction
succeed and produce data. -/
inductive NavOutcome (ε α : Type) where
  | createFail (e : ε)
  | failAfter (e : ε)
  | ok (d : α)

/-- Observable events of one `scrape_one` run: attempt starts, context
creation and release, and backoff suspensions with their delay. -/
inductive ScrapeEv where
  | attemptStart (n : Nat)
  | ctxOpen
  | ctxClose
  | sleep (delay : ℚ)
deriving DecidableEq, Repr

/-- The `for pick in pm.candidates()` loop body (lines 329-349): each
candidate runs in a `try`/`except`/`finally` where the `finally` closes
the context whenever one was created — on the success path before the
return, and on every failure path before the next candidate.  Returns the
events, the successful result (if any) with its pick, and `last_error`. -/
def runCandidates {ε α : Type} (nav : Nat → ProxyPick → NavOutcome ε α) (a : Nat) :
    List ProxyPick → Option ε → List ScrapeEv × Option (α × ProxyPick) × Option ε
  | [], lastErr => ([], none, lastErr)
  | pick :: rest, lastErr =>
    match nav a pick with
    | NavOutcome.ok d => ([ScrapeEv.ctxOpen, ScrapeEv.ctxClose], some (d, pick), lastErr)
    | NavOutcome.createFail e => runCandidates nav a rest (some e)
    | NavOutcome.failAfter e =>
      (ScrapeEv.ctxOpen :: ScrapeEv.ctxClose :: (runCandidates nav a rest (some e)).1,
       (runCandidates nav a rest (some e)).2.1,
       (runCandidates nav a rest (some e)).2.2)

/-- The `for attempt in range(1, cfg.retries + 1)` loop (lines 328-357):
per attempt, a fresh candidate list is requested (advancing the rotation
state), the candidates are tried in order, and after a fully failed
attempt the computed backoff delay is slept — the sleep sits inside the
attempt loop, so it also runs after the final attempt, before the
terminal `raise RuntimeError` carrying `last_error`. -/
def scrapeGo {ε α : Type} (nav : Nat → ProxyPick → NavOutcome ε α) (cfg : ScrapeCfg) :
    Nat → Nat → ProxyManager → Option ε →
    List ScrapeEv × Except (Option ε) (α × ProxyPick)
  | _, 0, _, lastErr => ([], Except.error lastErr)
  | a, rem + 1, pm, lastErr =>
    match (runCandidates nav a (candidates pm).1 lastErr).2.1 with
    | some d =>
      (ScrapeEv.attemptStart a :: (runCandidates nav a (candidates pm).1 lastErr).1,
       Except.ok d)
    | none =>
      (ScrapeEv.attemptStart a ::
        ((runCandidates nav a (candidates pm).1 lastErr).1 ++
          ScrapeEv.sleep (backoff cfg a) ::
            (scrapeGo nav cfg (a + 1) rem (candidates pm).2
              (runCandidates nav a (candidates pm).1 lastErr).2.2).1),
       (scrapeGo nav cfg (a + 1) rem (candidates pm).2
          (runCandidates nav a (candidates pm).1 lastErr).2.2).2)

/-- Model of `scrape_one`: attempts numbered from 1, `last_error`
initially absent. -/
def scrapeOne {ε α : Type} (nav : Nat → ProxyPick → NavOutcome ε α) (cfg : ScrapeCfg)
    (pm : ProxyManager) : List ScrapeEv × Except (Option ε) (α × ProxyPick) :=
  scrapeGo nav cfg 1 cfg.retries pm none

/-- Number of backoff suspensions in a trace. -/
def countSleeps (evs : List ScrapeEv) : Nat :=
  evs.countP (fun e => match e with | ScrapeEv.sleep _ => true | _ => false)

/-- Number of attempt starts in a trace. -/
def countAttempts (evs : List ScrapeEv) : Nat :=
  evs.countP (fun e => match e with | ScrapeEv.attemptStart _ => true | _ => false)

/-- Step of the context-discipline scanner: while a context is open the
only admissible event is its release; opening requires no context open;
attempt starts and sleeps require the previous context to be closed. -/
def ctxStep (opened : Bool) : ScrapeEv → Option Bool
  | ScrapeEv.ctxOpen => if opened then none else some true
  | ScrapeEv.ctxClose => if opened then some false else none
  | _ => if opened then none else some false

/-- Scan a trace for context discipline, returning the final open flag,
or `none` on the first violation. -/
def ctxScan : Bool → List ScrapeEv → Option Bool
  | b, [] => some b
  | b, e :: rest =>
    match ctxStep b e with
    | some b' => ctxScan b' rest
    | none => none

/-! ## Concrete instances used by evaluation theorems and witnesses -/

/-- An oracle under which every candidate of every attempt fails after
context creation, with an error recording the attempt and the layer. -/
def navFailAll : Nat → ProxyPick → NavOutcome (Nat × String) Unit :=
  fun a p => NavOutcome.failAfter (a, p.layer)

/-- Retry budget 2, base backoff 1.2 seconds, cap 10 seconds. -/
def cfgTwo : ScrapeCfg := ⟨2, 6/5, 10⟩

/-- One two-endpoint layer plus direct fallback, counters at zero. -/
def pmOne : ProxyManager := ⟨[("pool", ["p1", "p2"])], true, fun _ => 0⟩

/-- Three declared layers, one of them empty, with direct fallback. -/
def pmThree : ProxyManager :=
  ⟨[("a", ["x"]), ("b", []), ("c", ["y", "z"])], true, fun _ => 0⟩

/-! ## Lemmas about `_clean` and the line split -/

theorem mem_of_mem_dropWhile {α : Type} (p : α → Bool) :
    ∀ (l : List α) (a : α), a ∈ l.dropWhile p → a ∈ l := by
  intro l
  induction l with
  | nil => intro a h; simp at h
  | cons x xs ih =>
    intro a h
    by_cases hx : p x
    · rw [List.dropWhile_cons_of_pos hx] at h
      exact List.mem_cons_of_mem x (ih a h)
    · rwa [List.dropWhile_cons_of_neg hx] at h

theorem mem_of_mem_stripEnds {c : Char} {l : List Char} (h : c ∈ stripEnds l) : c ∈ l := by
  unfold stripEnds at h
  rw [List.mem_reverse] at h
  have h2 := mem_of_mem_dropWhile isPySpace _ _ h
  rw [List.mem_reverse] at h2
  exact mem_of_mem_dropWhile isPySpace _ _ h2

theorem nl_not_mem_collapseWSAux : ∀ (l : List Char) (b : Bool), '\n' ∉ collapseWSAux b l := by
  intro l
  induction l with
  | nil => intro b; simp [collapseWSAux]
  | cons c cs ih =>
    intro b hmem
    cases hc : isPySpace c with
    | true =>
      cases b with
      | true =>
        have e : collapseWSAux true (c :: cs) = collapseWSAux true cs := by
          simp [collapseWSAux, hc]
        rw [e] at hmem
        exact ih true hmem
      | false =>
        have e : collapseWSAux false (c :: cs) = ' ' :: collapseWSAux true cs := by
          simp [collapseWSAux, hc]
        rw [e] at hmem
        rcases List.mem_cons.mp hmem with h | h
        · exact absurd h (by decide)
        · exact ih true h
    | false =>
      have hne : ('\n' : Char) ≠ c := by
        intro h; rw [← h] at hc; exact absurd hc (by decide)
      have e : collapseWSAux b (c :: cs) = c :: collapseWSAux false cs := by
        simp [collapseWSAux, hc]
      rw [e] at hmem
      rcases List.mem_cons.mp hmem with h | h
      · exact hne h
      · exact ih false h

theorem nl_not_mem_clean (l : List Char) : '\n' ∉ clean l := fun h =>
  nl_not_mem_collapseWSAux l false (mem_of_mem_stripEnds h)

theorem splitOnNl_of_no_nl : ∀ (l : List Char), '\n' ∉ l → splitOnNl l = [l] := by
  intro l
  induction l with
  | nil => intro _; rfl
  | cons c cs ih =>
    intro h
    have hc : ¬ c = '\n' := fun e => h (e ▸ List.mem_cons_self c cs)
    have h2 : splitOnNl cs = [cs] := ih (fun m => h (List.mem_cons_of_mem c m))
    simp [splitOnNl, hc, h2]

theorem linesOf_short (body : List Char) :
    linesOf body = [] ∨ linesOf body = [clean body] := by
  unfold linesOf
  rw [splitOnNl_of_no_nl (clean body) (nl_not_mem_clean body)]
  cases h : (clean body).isEmpty with
  | true => left; simp [List.filter, h]
  | false => right; simp [List.filter, h]

theorem anchorStage_of_linesOf (body : List Char) :
    anchorStage (linesOf body) = Except.ok (none, none) := by
  rcases linesOf_short body with h | h <;> rw [h]
  · rfl
  · unfold anchorStage
    by_cases hx : anchorText ∈ [clean body]
    · have e : clean body = anchorText := by
        rcases List.mem_singleton.mp hx with e; exact e.symm
      rw [if_pos hx, e]
      rfl
    · rw [if_neg hx]

theorem parseProfile_ok (url : String) (body : List Char)
    (ch lh kh : Option (List (List Char))) :
    parseProfile url body ch lh kh = Except.ok
      { source_url := url
        region := none
        family_name := none
        community := communityOf (extractSectionList ch)
        life_raw := extractSectionList lh
        characters := charLoop (extractSectionList kh) } := by
  unfold parseProfile
  rw [anchorStage_of_linesOf]
  rfl

/-- C9: for every rendered-page input (any visible body text and any
contents, including absence, of the three heading sections), the embedded
`parse_profile` pipeline produces a record and never an error: a missing
anchor leaves region and family name unset, and a missing heading yields
an empty community map, life list, or character list. -/
theorem C9_parse_profile_total :
    ∀ (url : String) (body : List Char) (ch lh kh : Option (List (List Char))),
      ∃ r : ProfileRecord, parseProfile url body ch lh kh = Except.ok r
        ∧ (ch = none → r.community = [])
        ∧ (lh = none → r.life_raw = [])
        ∧ (kh = none → r.characters = [])
        ∧ (anchorText ∉ linesOf body → r.region = none ∧ r.family_name = none) := by
  intro url body ch lh kh
  refine ⟨_, parseProfile_ok url body ch lh kh, ?_, ?_, ?_, ?_⟩
  · rintro rfl; rfl
  · rintro rfl; rfl
  · rintro rfl; rfl
  · intro _; exact ⟨rfl, rfl⟩

/-- Witness for C9 at a concrete malformed input. -/
theorem C9_parse_profile_total_witness :
    ∃ r : ProfileRecord,
      parseProfile "https://example.test" (" \t garbage ".data) none none none = Except.ok r
        ∧ ((none : Option (List (List Char))) = none → r.community = [])
        ∧ ((none : Option (List (List Char))) = none → r.life_raw = [])
        ∧ ((none : Option (List (List Char))) = none → r.characters = [])
        ∧ (anchorText ∉ linesOf (" \t garbage ".data) → r.region = none ∧ r.family_name = none) :=
  C9_parse_profile_total "https://example.test" (" \t garbage ".data) none none none

/-- C3: for every input body text, `parse_profile` returns region and
family name both unset: `_clean` collapses every whitespace run, newlines
included, into single spaces before the split on newlines, so the line
list has at most one element and the anchor-window scan can never assign
either field. -/
theorem C3_region_family_always_none :
    (∀ body : List Char, (linesOf body).length ≤ 1)
    ∧ (∀ (url : String) (body : List Char) (ch lh kh : Option (List (List Char)))
        (r : ProfileRecord), parseProfile url body ch lh kh = Except.ok r →
        r.region = none ∧ r.family_name = none) := by
  constructor
  · intro body
    rcases linesOf_short body with h | h <;> simp [h]
  · intro url body ch lh kh r h
    rw [parseProfile_ok] at h
    have e := Except.ok.inj h
    subst e
    exact ⟨rfl, rfl⟩

/-- Witness for C3 at the spec's example body text. -/
theorem C3_region_family_always_none_witness :
    ({ source_url := "u", region := none, family_name := none,
       community := [], life_raw := [], characters := [] } : ProfileRecord).region = none
    ∧ ({ source_url := "u", region := none, family_name := none,
         community := [], life_raw := [], characters := [] } : ProfileRecord).family_name
        = none :=
  C3_region_family_always_none.2 "u" ("Adventurer Profile\nEU\nDoe".data) none none none
    { source_url := "u", region := none, family_name := none,
      community := [], life_raw := [], characters := [] }
    (parseProfile_ok "u" ("Adventurer Profile\nEU\nDoe".data) none none none)

/-- C2: evaluation at the failing input.  On the body text
`"Adventurer Profile\nEU\nDoe"` the full pipeline returns region and
family name unset (the newlines are collapsed before the split), while the
anchor-window logic applied to the line sequence
`["Adventurer Profile", "EU", "Doe"]` itself would yield region `"EU"`
and family name `"Doe"` as the claim states. -/
theorem C2_anchor_scan_eval :
    parseProfile "u" ("Adventurer Profile\nEU\nDoe".data) none none none
      = Except.ok { source_url := "u", region := none, family_name := none,
                    community := [], life_raw := [], characters := [] }
    ∧ anchorStage ["Adventurer Profile".data, "EU".data, "Doe".data]
      = Except.ok (some "EU".data, some "Doe".data) :=
  ⟨parseProfile_ok "u" ("Adventurer Profile\nEU\nDoe".data) none none none, rfl⟩

/-- C4 counterexample: the collected line `"Guild:   Foo"` does not parse
to the pair `("Guild", "Foo")`; the separator match keeps the colon in
the label, producing `("Guild:", "Foo")`. -/
theorem C4_community_counterexample :
    communityOf ["Guild:   Foo".data] ≠ [("Guild".data, "Foo".data)]
    ∧ communityOf ["Guild:   Foo".data] = [("Guild:".data, "Foo".data)] := by
  exact ⟨by decide, by decide⟩

/-- C4 amended: the sub-parse splits a line at the first separator
(two-or-more whitespace characters, or space-colon-space), the label
keeping everything before the separator — so `"Guild:   Foo"` yields
label `"Guild:"` (trailing colon kept) with value `"Foo"` — and a line
with no separator becomes a label mapped to the empty value, e.g.
`"JustALabel"`. -/
theorem C4_community_amended :
    communityOf ["Guild:   Foo".data] = [("Guild:".data, "Foo".data)]
    ∧ communityOf ["JustALabel".data] = [("JustALabel".data, ([] : List Char))]
    ∧ (∀ item : List Char, matchCommunity item = none →
        communityOf [item] = [(item, ([] : List Char))]) := by
  refine ⟨by decide, by decide, ?_⟩
  intro item h
  simp [communityOf, h, dictInsert]

/-- Witness for C4's no-separator case at a concrete line. -/
theorem C4_community_amended_witness :
    communityOf ["NoSeparator".data] = [("NoSeparator".data, ([] : List Char))] :=
  C4_community_amended.2.2 ("NoSeparator".data) (by decide)

/-- C5: character lines are consumed in pairs; a name line containing the
"Main Character" marker is stripped of it with the is-main flag set; an
unmatched class/level line yields empty class and level with the name
preserved; an entry is omitted exactly when its stripped name is empty;
and `["Jane Main Character", "Warrior Lv 60"]` parses to the single entry
name "Jane", class "Warrior", level "60", is-main true. -/
theorem C5_characters_pairwise :
    (∀ (n c : List Char) (rest : List (List Char)),
      charLoop (n :: c :: rest) = charPair n (some c) ++ charLoop rest)
    ∧ (∀ (n : List Char) (copt : Option (List Char)),
        (clean (replaceSub mainMarker [] n)).isEmpty = true → charPair n copt = [])
    ∧ (∀ (n c : List Char), matchClassLv c = none →
        (clean (replaceSub mainMarker [] n)).isEmpty = false →
        charPair n (some c) =
          [{ name := clean (replaceSub mainMarker [] n), class_name := [], level := [],
             is_main := containsSub mainMarker n }])
    ∧ charLoop ["Jane Main Character".data, "Warrior Lv 60".data]
        = [{ name := "Jane".data, class_name := "Warrior".data, level := "60".data,
             is_main := true }] := by
  refine ⟨fun n c rest => rfl, ?_, ?_, by decide⟩
  · intro n copt h
    cases copt with
    | none => simp [charPair, h]
    | some cl =>
      cases hm : matchClassLv cl with
      | none => simp [charPair, h, hm]
      | some p => cases p with | mk a b => simp [charPair, h, hm]
  · intro n c hm hne
    simp [charPair, hm, hne]

/-- Witness for C5's unmatched class/level line at a concrete pair. -/
theorem C5_characters_pairwise_witness :
    charPair ("Bob Main Character".data) (some ("no level info".data)) =
      [{ name := clean (replaceSub mainMarker [] ("Bob Main Character".data)),
         class_name := [], level := [],
         is_main := containsSub mainMarker ("Bob Main Character".data) }] :=
  C5_characters_pairwise.2.2.1 ("Bob Main Character".data) ("no level info".data)
    (by decide) (by decide)

/-! ## Lemmas about `candidates()` -/

theorem candidatesAux_map_layer :
    ∀ (layers : List (String × List String)) (idx : String → Nat),
      ((candidatesAux layers idx).1).map ProxyPick.layer
        = (layers.filter (fun l => !l.2.isEmpty)).map Prod.fst := by
  intro layers
  induction layers with
  | nil => intro idx; rfl
  | cons hd rest ih =>
    intro idx
    cases hd with
    | mk name ps =>
      cases ps with
      | nil => simpa [candidatesAux] using ih idx
      | cons p ps' => simp [candidatesAux, ih]

theorem candidatesAux_proxy_not_none :
    ∀ (layers : List (String × List String)) (idx : String → Nat) (p : ProxyPick),
      p ∈ (candidatesAux layers idx).1 → p.proxy ≠ none := by
  intro layers
  induction layers with
  | nil => intro idx p hp; simp [candidatesAux] at hp
  | cons hd rest ih =>
    intro idx p hp
    cases hd with
    | mk name ps =>
      cases ps with
      | nil => exact ih idx p hp
      | cons q qs =>
        rcases List.mem_cons.mp hp with h | h
        · subst h; simp
        · exact ih _ p h

theorem candidatesAux_idx_of_not_mem :
    ∀ (layers : List (String × List String)) (idx : String → Nat) (nm : String),
      nm ∉ layers.map Prod.fst → (candidatesAux layers idx).2 nm = idx nm := by
  intro layers
  induction layers with
  | nil => intro idx nm _; rfl
  | cons hd rest ih =>
    intro idx nm hnm
    cases hd with
    | mk name ps =>
      have hne : nm ≠ name := fun e => hnm (by simp [e])
      have hrest : nm ∉ rest.map Prod.fst := fun m => hnm (by simp [m])
      cases ps with
      | nil => exact ih idx nm hrest
      | cons q qs =>
        have := ih (fun m => if m = name then idx name + 1 else idx m) nm hrest
        simp only [candidatesAux] at *
        rw [this, if_neg hne]

theorem candidatesAux_sel_of_mem :
    ∀ (layers : List (String × List String)) (idx : String → Nat)
      (nm : String) (ps : List String),
      (nm, ps) ∈ layers → ps ≠ [] → (layers.map Prod.fst).Nodup →
      ProxyPick.mk nm (some (ps.getD (idx nm % ps.length) "")) ∈ (candidatesAux layers idx).1
      ∧ (candidatesAux layers idx).2 nm = idx nm + 1 := by
  intro layers
  induction layers with
  | nil => intro idx nm ps hmem; exact absurd hmem (List.not_mem_nil _)
  | cons hd rest ih =>
    intro idx nm ps hmem hne hnd
    cases hd with
    | mk name qs =>
      have hnd' : name ∉ rest.map Prod.fst ∧ (rest.map Prod.fst).Nodup := by
        rw [List.map_cons, List.nodup_cons] at hnd; exact hnd
      rcases List.mem_cons.mp hmem with h | h
      · -- the head layer is the one in question
        have hname : name = nm := (Prod.mk.injEq _ _ _ _ ▸ h.symm).1
        have hqs : qs = ps := (Prod.mk.injEq _ _ _ _ ▸ h.symm).2
        subst hname; subst hqs
        cases hq : qs with
        | nil => exact absurd hq hne
        | cons q qs' =>
          subst hq
          constructor
          · rw [List.getD_eq_getElem _ _
                (Nat.mod_lt (idx name) (List.length_pos.mpr (List.cons_ne_nil q qs')))]
            exact List.mem_cons_self _ _
          · have hstep :
                (candidatesAux rest (fun m => if m = name then idx name + 1 else idx m)).2 name
                  = if name = name then idx name + 1 else idx name :=
              candidatesAux_idx_of_not_mem rest _ name hnd'.1
            simp only [candidatesAux]
            rw [hstep, if_pos rfl]
      · -- the layer in question sits in the tail
        have hmem' : nm ∈ rest.map Prod.fst :=
          List.mem_map.mpr ⟨(nm, ps), h, rfl⟩
        have hnename : nm ≠ name := fun e => hnd'.1 (e ▸ hmem')
        cases hq : qs with
        | nil =>
          subst hq
          exact ih idx nm ps h hne hnd'.2
        | cons q qs' =>
          subst hq
          obtain ⟨hsel, hidx⟩ :=
            ih (fun m => if m = name then idx name + 1 else idx m) nm ps h hne hnd'.2
          rw [if_neg hnename] at hsel hidx
          exact ⟨List.mem_cons_of_mem _ hsel, hidx⟩

theorem stateAfter_layers (pm : ProxyManager) :
    ∀ t, (stateAfter pm t).layers = pm.layers := by
  intro t
  induction t with
  | zero => rfl
  | succ t ih => simpa [stateAfter, candidates] using ih

theorem stateAfter_indices (pm : ProxyManager) (nm : String) (ps : List String)
    (hmem : (nm, ps) ∈ pm.layers) (hne : ps ≠ [])
    (hnd : (pm.layers.map Prod.fst).Nodup) :
    ∀ t, (stateAfter pm t).indices nm = pm.indices nm + t := by
  intro t
  induction t with
  | zero => rfl
  | succ t ih =>
    have hm' : (nm, ps) ∈ (stateAfter pm t).layers := by
      rw [stateAfter_layers]; exact hmem
    have hnd' : ((stateAfter pm t).layers.map Prod.fst).Nodup := by
      rw [stateAfter_layers]; exact hnd
    have h2 := (candidatesAux_sel_of_mem (stateAfter pm t).layers (stateAfter pm t).indices
      nm ps hm' hne hnd').2
    show (candidatesAux (stateAfter pm t).layers (stateAfter pm t).indices).2 nm = _
    rw [h2, ih, Nat.add_assoc]

/-- C6: with direct fallback enabled, one call to `candidates()` returns
exactly one pick per non-empty layer, in declared order (each carrying an
endpoint), followed by exactly one trailing direct pick with no
endpoint; empty layers contribute nothing. -/
theorem C6_candidates_per_layer :
    ∀ pm : ProxyManager, pm.direct_fallback = true →
      (candidates pm).1 = bodyPicks pm ++ [ProxyPick.mk "direct" none]
      ∧ (bodyPicks pm).map ProxyPick.layer
          = (pm.layers.filter (fun l => !l.2.isEmpty)).map Prod.fst
      ∧ ∀ p ∈ bodyPicks pm, p.proxy ≠ none := by
  intro pm h
  exact ⟨by simp [candidates, bodyPicks, h],
    candidatesAux_map_layer pm.layers pm.indices,
    fun p hp => candidatesAux_proxy_not_none pm.layers pm.indices p hp⟩

/-- Witness for C6 on a three-layer manager with one empty layer. -/
theorem C6_candidates_per_layer_witness :
    (candidates pmThree).1 = bodyPicks pmThree ++ [ProxyPick.mk "direct" none]
    ∧ (bodyPicks pmThree).map ProxyPick.layer
        = (pmThree.layers.filter (fun l => !l.2.isEmpty)).map Prod.fst
    ∧ ∀ p ∈ bodyPicks pmThree, p.proxy ≠ none :=
  C6_candidates_per_layer pmThree rfl

/-- C7: for a layer of length `L ≥ 1` (with distinct layer names, an
invariant of the data model), the `candidates()` call made while the
layer's counter holds `n` selects the endpoint at index `n mod L` of the
layer's fixed list and increments exactly that counter by one, leaving
the layer lists unchanged; consequently, starting from a zero counter,
after any `k ≥ L` calls every endpoint of the layer has been selected at
least once. -/
theorem C7_rotation_round_robin :
    ∀ (pm : ProxyManager) (nm : String) (ps : List String),
      (nm, ps) ∈ pm.layers → (pm.layers.map Prod.fst).Nodup →
      (ps ≠ [] →
        ProxyPick.mk nm (some (ps.getD (pm.indices nm % ps.length) "")) ∈ (candidates pm).1
        ∧ (candidates pm).2.indices nm = pm.indices nm + 1
        ∧ (candidates pm).2.layers = pm.layers)
      ∧ (pm.indices nm = 0 → ∀ k, ps.length ≤ k → ∀ e ∈ ps,
          ∃ t, t < k ∧ ProxyPick.mk nm (some e) ∈ (candidates (stateAfter pm t)).1) := by
  intro pm nm ps hmem hnd
  constructor
  · intro hne
    obtain ⟨hsel, hidx⟩ := candidatesAux_sel_of_mem pm.layers pm.indices nm ps hmem hne hnd
    exact ⟨List.mem_append_left _ hsel, hidx, rfl⟩
  · intro h0 k hk e he
    obtain ⟨j, hj, hget⟩ := List.mem_iff_getElem.mp he
    have hne : ps ≠ [] := fun e0 => by subst e0; exact absurd he (List.not_mem_nil _)
    refine ⟨j, lt_of_lt_of_le hj hk, ?_⟩
    have hm' : (nm, ps) ∈ (stateAfter pm j).layers := by
      rw [stateAfter_layers]; exact hmem
    have hnd' : ((stateAfter pm j).layers.map Prod.fst).Nodup := by
      rw [stateAfter_layers]; exact hnd
    have hidx : (stateAfter pm j).indices nm = j := by
      rw [stateAfter_indices pm nm ps hmem hne hnd j, h0, Nat.zero_add]
    have hsel := (candidatesAux_sel_of_mem (stateAfter pm j).layers
      (stateAfter pm j).indices nm ps hm' hne hnd').1
    rw [hidx, Nat.mod_eq_of_lt hj, List.getD_eq_getElem _ _ hj, hget] at hsel
    exact List.mem_append_left _ hsel

/-- Witness for C7 on the concrete three-layer manager: the first call
picks layer c's endpoint at index 0 and bumps its counter, and within two
calls the endpoint "z" of the length-2 layer c is selected. -/
theorem C7_rotation_round_robin_witness :
    (ProxyPick.mk "c" (some "y") ∈ (candidates pmThree).1
      ∧ (candidates pmThree).2.indices "c" = 1
      ∧ (candidates pmThree).2.layers = pmThree.layers)
    ∧ (∃ t, t < 2 ∧ ProxyPick.mk "c" (some "z") ∈ (candidates (stateAfter pmThree t)).1) :=
  ⟨(C7_rotation_round_robin pmThree "c" ["y", "z"] (by decide) (by decide)).1 (by decide),
   (C7_rotation_round_robin pmThree "c" ["y", "z"] (by decide) (by decide)).2 rfl 2
     (by decide) "z" (by decide)⟩

/-! ## Lemmas about the retry loop trace -/

theorem ctxScan_append :
    ∀ (l1 l2 : List ScrapeEv) (b : Bool),
      ctxScan b (l1 ++ l2) =
        match ctxScan b l1 with
        | some b' => ctxScan b' l2
        | none => none := by
  intro l1
  induction l1 with
  | nil => intro l2 b; rfl
  | cons e l1 ih =>
    intro l2 b
    cases he : ctxStep b e with
    | some b' => simp [ctxScan, he, ih]
    | none => simp [ctxScan, he]

theorem runCandidates_ctx {ε α : Type} (nav : Nat → ProxyPick → NavOutcome ε α) (a : Nat) :
    ∀ (picks : List ProxyPick) (le : Option ε),
      ctxScan false (runCandidates nav a picks le).1 = some false := by
  intro picks
  induction picks with
  | nil => intro le; rfl
  | cons pick rest ih =>
    intro le
    cases hn : nav a pick with
    | ok d => simp [runCandidates, hn, ctxScan, ctxStep]
    | createFail e => simp [runCandidates, hn, ih]
    | failAfter e =>
      simp only [runCandidates, hn]
      show ctxScan false (ScrapeEv.ctxOpen :: ScrapeEv.ctxClose :: _) = some false
      simpa [ctxScan, ctxStep] using ih (some e)

theorem scrapeGo_ctx {ε α : Type} (nav : Nat → ProxyPick → NavOutcome ε α) (cfg : ScrapeCfg) :
    ∀ (rem a : Nat) (pm : ProxyManager) (le : Option ε),
      ctxScan false (scrapeGo nav cfg a rem pm le).1 = some false := by
  intro rem
  induction rem with
  | zero => intro a pm le; rfl
  | succ rem ih =>
    intro a pm le
    cases hres : (runCandidates nav a (candidates pm).1 le).2.1 with
    | some d =>
      simp only [scrapeGo, hres]
      show ctxScan false (ScrapeEv.attemptStart a :: _) = some false
      simpa [ctxScan, ctxStep] using runCandidates_ctx nav a (candidates pm).1 le
    | none =>
      simp only [scrapeGo, hres]
      show ctxScan false (ScrapeEv.attemptStart a :: (_ ++ ScrapeEv.sleep _ :: _)) = some false
      have h1 := runCandidates_ctx nav a (candidates pm).1 le
      have h2 := ih (a + 1) (candidates pm).2 (runCandidates nav a (candidates pm).1 le).2.2
      simp [ctxScan, ctxStep, ctxScan_append, h1, h2]

/-- C10: in every run of the retry loop — any oracle behaviour, any
configuration, any rotation state — the event trace of `scrape_one` keeps
context discipline: a context is opened only when none is open, every
opened context is closed before any further event (next candidate, next
attempt, backoff sleep, or returning), and the trace ends with no context
open; hence no context is ever reused across candidates or attempts. -/
theorem C10_context_discipline :
    ∀ (ε α : Type) (nav : Nat → ProxyPick → NavOutcome ε α) (cfg : ScrapeCfg)
      (pm : ProxyManager),
      ctxScan false (scrapeOne nav cfg pm).1 = some false := by
  intro ε α nav cfg pm
  exact scrapeGo_ctx nav cfg cfg.retries 1 pm none

/-- C8: the backoff delay computed after a fully failed attempt is
`min(max_backoff_seconds, backoff_seconds * 2^(attempt-1))`, never
exceeding the configured maximum; with base 1.2 and cap 10.0, attempts 1
through 6 yield 1.2, 2.4, 4.8, 9.6, 10.0, 10.0. -/
theorem C8_backoff_values :
    (∀ (cfg : ScrapeCfg) (a : Nat), backoff cfg a ≤ cfg.max_backoff_seconds)
    ∧ backoff ⟨6, 6/5, 10⟩ 1 = 6/5
    ∧ backoff ⟨6, 6/5, 10⟩ 2 = 12/5
    ∧ backoff ⟨6, 6/5, 10⟩ 3 = 24/5
    ∧ backoff ⟨6, 6/5, 10⟩ 4 = 48/5
    ∧ backoff ⟨6, 6/5, 10⟩ 5 = 10
    ∧ backoff ⟨6, 6/5, 10⟩ 6 = 10 := by
  refine ⟨fun cfg a => min_le_left _ _, ?_, ?_, ?_, ?_, ?_, ?_⟩ <;>
    · rw [backoff, min_def]
      norm_num

/-- C1: evaluation of the retry loop at a failing input (retry budget 2,
one two-endpoint layer plus direct fallback, every candidate failing
navigation).  The run makes exactly `retries` attempts and terminates
with the last observed error — the attempt-2 direct-candidate failure —
as the claim states, but it suspends for a backoff delay after every
failed attempt including the final one: `retries` suspensions, not
`retries - 1`. -/
theorem C1_failure_trace_eval :
    scrapeOne navFailAll cfgTwo pmOne =
      ([ScrapeEv.attemptStart 1, ScrapeEv.ctxOpen, ScrapeEv.ctxClose,
        ScrapeEv.ctxOpen, ScrapeEv.ctxClose, ScrapeEv.sleep (backoff cfgTwo 1),
        ScrapeEv.attemptStart 2, ScrapeEv.ctxOpen, ScrapeEv.ctxClose,
        ScrapeEv.ctxOpen, ScrapeEv.ctxClose, ScrapeEv.sleep (backoff cfgTwo 2)],
       Except.error (some (2, "direct")))
    ∧ countAttempts (scrapeOne navFailAll cfgTwo pmOne).1 = cfgTwo.retries
    ∧ countSleeps (scrapeOne navFailAll cfgTwo pmOne).1 = cfgTwo.retries
    ∧ countSleeps (scrapeOne navFailAll cfgTwo pmOne).1 ≠ cfgTwo.retries - 1 := by
  refine ⟨?_, by decide, by decide, by decide⟩
  rfl
